import Mathlib

/-!
Verification of the VAD (voice-activity-detection) orchestrator of this
repository against its specification.

The development shallowly embeds the Python class `VADProcessor`
(src/audio/pipeline/vad_processor.py) together with the piece of
`TokenManager` it uses.  Python floats are modelled as rationals, machine
effects (network access, model loading, file IO, inference) as an explicit
environment record consumed by the embedded functions, and the effect
trace of a call as an explicit list of step markers.  Fallible external
calls are modelled by a Boolean outcome plus the message of the exception
they would raise; the top-level try/except of each method becomes a case
split on those outcomes.
-/

namespace VAD

/-- A pyannote `Segment`: a pair of rational timestamps.  The Python
attribute `end` is a Lean keyword, written `«end»` here. -/
structure Seg where
  start : ℚ
  «end» : ℚ
  deriving DecidableEq, Repr

/-- The slice of the YAML configuration that the post-processor and the
result builder read (`min_duration_s`, `merge_gap_s`, `margin_s`);
the remaining keys (`model`, thresholds) are carried by the orchestrator
state and the environment. -/
structure Config where
  min_duration_s : ℚ
  merge_gap_s : ℚ
  margin_s : ℚ
  deriving DecidableEq, Repr

/-- The default configuration of `_load_config` (used when the YAML file
is missing), restricted to the keys the post-processor reads. -/
def defaultConfig : Config :=
  { min_duration_s := 3/10, merge_gap_s := 1/5, margin_s := 1/4 }

/-- Embeds the filter test of the first loop of `_post_process_segments`:
the source skips a segment when `duration < self.config["min_duration_s"]`
(`continue`), hence keeps it exactly when the duration is not below the
threshold. -/
def filterStep (cfg : Config) (s : Seg) : Bool :=
  !(decide (s.«end» - s.start < cfg.min_duration_s))

/-- Embeds the margin application of the first loop of
`_post_process_segments`: `start = max(0, start - margin_s)` and
`end = min(audio_duration, end + margin_s)`. -/
def applyMargin (cfg : Config) (audio_duration : ℚ) (s : Seg) : Seg :=
  { start := max 0 (s.start - cfg.margin_s)
    «end» := min audio_duration (s.«end» + cfg.margin_s) }

/-- The first loop of `_post_process_segments`: duration filter followed by
margin application, segment by segment, in source order. -/
def passOne (cfg : Config) (audio_duration : ℚ) : List Seg → List Seg
  | [] => []
  | s :: rest =>
    if s.«end» - s.start < cfg.min_duration_s then
      passOne cfg audio_duration rest
    else
      applyMargin cfg audio_duration s :: passOne cfg audio_duration rest

/-- The merge loop of `_post_process_segments`: `current` is the
accumulated segment, the list holds the remaining segments
(`processed_segments[1:]`).  A neighbour whose start is within
`merge_gap_s` of `current.end` (`next_seg.start - current.end <= merge_gap_s`)
extends the accumulated segment to `Segment(current.start, next_seg.end)`;
otherwise the accumulated segment is emitted and the neighbour starts a
new one.  The final accumulated segment is always emitted. -/
def mergeLoop (g : ℚ) : Seg → List Seg → List Seg
  | current, [] => [current]
  | current, next :: rest =>
    if next.start - current.«end» ≤ g then
      mergeLoop g { start := current.start, «end» := next.«end» } rest
    else
      current :: mergeLoop g next rest

/-- Embeds `VADProcessor._post_process_segments`: the filter/margin loop,
then — only when the filtered list is non-empty and `merge_gap_s > 0` —
the merge loop seeded with the first filtered segment.  (The body is pure
rational arithmetic, so the `except` branch of the source, which returns
`[]`, is unreachable in the embedding.) -/
def _post_process_segments (cfg : Config) (segments : List Seg)
    (audio_duration : ℚ) : List Seg :=
  let processed := passOne cfg audio_duration segments
  if 0 < cfg.merge_gap_s then
    match processed with
    | [] => processed
    | first :: rest => mergeLoop cfg.merge_gap_s first rest
  else
    processed

/-- Python `round(x, 3)` rounds to the nearest integer number of
thousandths, ties to the even integer (Python rounds half to even). -/
def roundHalfEven (q : ℚ) : ℤ :=
  if q - Int.floor q < 1/2 then Int.floor q
  else if 1/2 < q - Int.floor q then Int.floor q + 1
  else if Int.floor q % 2 = 0 then Int.floor q else Int.floor q + 1

/-- Embeds `round(x, 3)` of the source, on rationals. -/
def round3 (q : ℚ) : ℚ := (roundHalfEven (q * 1000) : ℚ) / 1000

/-- One output event of `process_audio` (lines 310-316 of
vad_processor.py): the dict appended to `final_segments`. -/
structure SpeechEvent where
  type : String
  start : ℚ
  «end» : ℚ
  confidence : Option ℚ
  duration : ℚ
  deriving DecidableEq, Repr

/-- Builds one `final_segments` entry from a processed segment. -/
def mkEvent (s : Seg) : SpeechEvent :=
  { type := "speech"
    start := round3 s.start
    «end» := round3 s.«end»
    confidence := none
    duration := round3 (s.«end» - s.start) }

/-- Outcomes of the external calls made by `initialize_pipeline`: the
result of `TokenManager.check_model_access` (a success flag plus the
message/details it would report) and of `Pipeline.from_pretrained` +
`.to(device)` (success, or the exception text).  Accents and apostrophes
of the French source strings are transliterated. -/
structure InitEnv where
  access_ok : Bool
  access_message : String
  access_details : String
  load_ok : Bool
  load_error : String
  load_error_type : String
  deriving DecidableEq, Repr

/-- Externally visible work done by one `initialize_pipeline` call. -/
inductive InitEffect
  | checkAccess
  | loadPipeline
  deriving DecidableEq, Repr

/-- The dict returned by `initialize_pipeline`.  `keys` records the
literal key set of the returned Python dict; Python dict truthiness
(`if not d`) is emptiness of that key set. -/
structure InitResult where
  success : Bool
  message : String
  details : Option String
  error_type : Option String
  keys : List String
  deriving DecidableEq, Repr

/-- The mutable fields of `VADProcessor` read or written by
`initialize_pipeline` and `process_audio`.  The pipeline handle is opaque
(`Option Unit`); `token` is the token resolved by `TokenManager` at
construction (`None` covering both a missing and an empty token). -/
structure VADState where
  config : Config
  model_id : String
  pipeline : Option Unit
  device_str : String
  token : Option String
  initialization_error : Option String
  deriving DecidableEq, Repr

/-- Embeds `VADProcessor.initialize_pipeline` (lines 75-138): resolve
`hf_token or self.token`; fail fast when absent; else run the model
access check; on access success attempt the engine load, updating
`self.pipeline` and `self.initialization_error` accordingly.  A load
failure is modelled as leaving the pipeline handle unchanged.  Returns
the result dict, the updated state, and the external effects performed. -/
def initialize_pipeline (hf_token : Option String) (st : VADState)
    (env : InitEnv) : InitResult × VADState × List InitEffect :=
  match hf_token.orElse (fun _ => st.token) with
  | none =>
    ({ success := false
       message := "Token HuggingFace manquant"
       details := some "Aucun token trouve dans .streamlit/secrets.toml ou variables d environnement"
       error_type := none
       keys := ["success", "message", "details"] }, st, [])
  | some _ =>
    if env.access_ok then
      if env.load_ok then
        ({ success := true
           message := "Pipeline VAD initialisee avec succes."
           details := none
           error_type := none
           keys := ["success", "message", "access_status"] },
         { st with pipeline := some (), initialization_error := none },
         [InitEffect.checkAccess, InitEffect.loadPipeline])
      else
        ({ success := false
           message := "Echec de l initialisation de la pipeline"
           details := some env.load_error
           error_type := some env.load_error_type
           keys := ["success", "message", "details", "error_type"] },
         { st with initialization_error := some ("Erreur initialisation pipeline: " ++ env.load_error) },
         [InitEffect.checkAccess, InitEffect.loadPipeline])
    else
      ({ success := false
         message := "Echec de la verification d acces au modele: " ++ env.access_message
         details := some env.access_details
         error_type := none
         keys := ["success", "message", "details", "access_status"] }, st,
       [InitEffect.checkAccess])

/-- Steps of one `process_audio` call, in execution order, as recorded by
the embedding: a step is logged when it completes (for `extractScratch`,
when the scratch file has been created; for `removeScratch`, when
`os.remove` ran on it). -/
inductive Step
  | initAttempt
  | detectFileType
  | extractScratch
  | computeHash
  | readAudio
  | runInference
  | postProcess
  | removeScratch
  | saveResults
  deriving DecidableEq, Repr

/-- Shape of the object returned by the inference pipeline (lines
287-302): an object with `get_timeline`, a dict with a "speech" key, or
anything else. -/
inductive InferShape
  | timeline
  | speechDict
  | other
  deriving DecidableEq, Repr

/-- The external world of one `process_audio` call: the init environment
(used only when the pipeline is not yet loaded), the lowercased extension
of `file_path`, and for each fallible external call its outcome and, on
failure, the text and class name of the exception it raises.
`audio_duration` abbreviates `len(waveform) / sample_rate`. -/
structure ProcEnv where
  init_env : InitEnv
  file_path : String
  suffix : String
  ffmpeg_available : Bool
  extract_ok : Bool
  extract_error : String
  extract_error_type : String
  hash_ok : Bool
  hash_error : String
  hash_error_type : String
  read_ok : Bool
  read_error : String
  read_error_type : String
  audio_duration : ℚ
  infer_ok : Bool
  infer_error : String
  infer_error_type : String
  infer_shape : InferShape
  raw_segments : List Seg
  processing_time : ℚ
  deriving DecidableEq, Repr

/-- The health snapshot returned by `check_prerequisites` (lines
360-389), restricted to the fields derived from the modelled
state/environment. -/
structure Health where
  device : String
  ffmpeg_available : Bool
  config_loaded : Bool
  token_available : Bool
  deriving DecidableEq, Repr

/-- The `metadata` sub-dict of a successful `process_audio` result
(lines 332-343). -/
structure Metadata where
  source : String
  input_type : String
  duration_s : ℚ
  profile : String
  model : String
  device : String
  processing_time_s : ℚ
  rtf : ℚ
  segments_count : ℕ
  config : Config
  deriving DecidableEq, Repr

/-- The health snapshot of `check_prerequisites` (lines 360-389):
`config_loaded` is `bool(self.config)`, true for the non-empty configs
modelled here. -/
def check_prerequisites (st : VADState) (env : ProcEnv) : Health :=
  { device := st.device_str
    ffmpeg_available := env.ffmpeg_available
    config_loaded := true
    token_available := st.token.isSome }

/-- Result of `process_audio`: the success record (lines 330-345), the
generic failure record of the top-level `except` (lines 354-358), or the
failure record of the initialization guard carrying the health snapshot
(lines 253-257). -/
inductive ProcResult
  | success (metadata : Metadata) (events : List SpeechEvent)
  | failure (error : String) (error_type : String)
  | failureWithHealth (error : String) (health : Health)
  deriving DecidableEq, Repr

/-- The video extensions recognized at line 261. -/
def video_extensions : List String := [".mp4", ".mkv", ".avi", ".mov"]

/-- Segment extraction from the inference output (lines 287-302): a
timeline or a "speech"-keyed dict yields its segments, any other shape
yields the empty list (with a logged warning). -/
def extractSegments (env : ProcEnv) : List Seg :=
  match env.infer_shape with
  | InferShape.timeline => env.raw_segments
  | InferShape.speechDict => env.raw_segments
  | InferShape.other => []

/-- The part of `process_audio` (lines 259-358) after the initialization
guard: file-type detection, optional audio extraction, hashing, decoding,
inference, post-processing, scratch cleanup, result construction and
persistence.  An external call whose environment flag is false raises; the
top-level `except` of the source turns the raise into a
`ProcResult.failure` carrying the exception text and class name.  The
returned step list extends `ops` with the steps that completed. -/
def process_audio_body (st : VADState) (env : ProcEnv) (ops : List Step) :
    ProcResult × VADState × List Step :=
  let ops := ops ++ [Step.detectFileType]
  let is_video := video_extensions.contains env.suffix
  if is_video && !env.extract_ok then
    (ProcResult.failure env.extract_error env.extract_error_type, st, ops)
  else
    let ops := if is_video then ops ++ [Step.extractScratch] else ops
    if !env.hash_ok then
      (ProcResult.failure env.hash_error env.hash_error_type, st, ops)
    else
      let ops := ops ++ [Step.computeHash]
      if !env.read_ok then
        (ProcResult.failure env.read_error env.read_error_type, st, ops)
      else
        let ops := ops ++ [Step.readAudio]
        match st.pipeline with
        | none =>
          -- `self.pipeline(audio_path)` with `self.pipeline is None`
          (ProcResult.failure "NoneType object is not callable" "TypeError",
           st, ops)
        | some _ =>
          if !env.infer_ok then
            (ProcResult.failure env.infer_error env.infer_error_type, st, ops)
          else
            let ops := ops ++ [Step.runInference]
            let processed := _post_process_segments st.config
              (extractSegments env) env.audio_duration
            let ops := ops ++ [Step.postProcess]
            let final_segments := processed.map mkEvent
            let rtf := if 0 < env.audio_duration then
              env.processing_time / env.audio_duration else 0
            let ops := if is_video then ops ++ [Step.removeScratch] else ops
            (ProcResult.success
              { source := env.file_path
                input_type := if is_video then "video" else "audio"
                duration_s := round3 env.audio_duration
                profile := "vad"
                model := st.model_id
                device := st.device_str
                processing_time_s := round3 env.processing_time
                rtf := round3 rtf
                segments_count := final_segments.length
                config := st.config }
              final_segments,
             st, ops ++ [Step.saveResults])

/-- Embeds `VADProcessor.process_audio` (lines 237-358).  When the
pipeline handle is absent the source runs
`if not self.initialize_pipeline():` — Python truthiness of the returned
dict, i.e. emptiness of its key set — and only a falsy (empty) dict
would produce the failure record with the health snapshot. -/
def process_audio (st : VADState) (env : ProcEnv) :
    ProcResult × VADState × List Step :=
  match st.pipeline with
  | none =>
    let r := initialize_pipeline none st env.init_env
    if r.1.keys.isEmpty then
      (ProcResult.failureWithHealth
        (r.2.1.initialization_error.getD "Pipeline non initialisee")
        (check_prerequisites r.2.1 env),
       r.2.1, [Step.initAttempt])
    else
      process_audio_body r.2.1 env [Step.initAttempt]
  | some _ => process_audio_body st env []

/-- A `VADProcessor` whose construction found no HuggingFace token and
whose pipeline is not yet loaded. -/
def stUninit : VADState :=
  { config := defaultConfig
    model_id := "pyannote/voice-activity-detection"
    pipeline := none
    device_str := "cpu"
    token := none
    initialization_error := none }

/-- A `VADProcessor` with the pipeline already loaded. -/
def stReady : VADState :=
  { config := defaultConfig
    model_id := "pyannote/voice-activity-detection"
    pipeline := some ()
    device_str := "cpu"
    token := some "hf_token"
    initialization_error := none }

/-- An init environment in which the access check and the engine load
would both succeed. -/
def envInitOk : InitEnv :=
  { access_ok := true
    access_message := ""
    access_details := ""
    load_ok := true
    load_error := ""
    load_error_type := "" }

/-- A call on a `.wav` file in which every external step succeeds; the
inference returns a timeline bearing one raw segment `[1, 2]` on a
10-second file. -/
def envWavOk : ProcEnv :=
  { init_env := envInitOk
    file_path := "sample.wav"
    suffix := ".wav"
    ffmpeg_available := true
    extract_ok := true
    extract_error := ""
    extract_error_type := ""
    hash_ok := true
    hash_error := ""
    hash_error_type := ""
    read_ok := true
    read_error := ""
    read_error_type := ""
    audio_duration := 10
    infer_ok := true
    infer_error := ""
    infer_error_type := ""
    infer_shape := InferShape.timeline
    raw_segments := [{ start := 1, «end» := 2 }]
    processing_time := 0 }

/-- The same call on an uninitialized processor with no token anywhere:
`initialize_pipeline()` fails with the missing-token record. -/
def envWavNoToken : ProcEnv := envWavOk

/-- A call on a `.mp4` file whose audio extraction succeeds but whose
file hashing raises an `OSError`. -/
def envVideoHashFail : ProcEnv :=
  { envWavOk with
    file_path := "clip.mp4"
    suffix := ".mp4"
    hash_ok := false
    hash_error := "read failed"
    hash_error_type := "OSError" }

/-- A processor whose pipeline is loaded but whose token resolution
found nothing (e.g. secrets and environment were cleared after a manual
initialization with an explicit token). -/
def stLoadedNoToken : VADState := { stReady with token := none }

/-- The same fully successful call as `envWavOk`, on a `.mp4` video. -/
def envVideoOk : ProcEnv :=
  { envWavOk with file_path := "clip.mp4", suffix := ".mp4" }

/-- The events of the successful run `process_audio stReady envWavOk`. -/
def evWavOk : List SpeechEvent :=
  (_post_process_segments stReady.config (extractSegments envWavOk)
    envWavOk.audio_duration).map mkEvent

/-- The metadata of the successful run `process_audio stReady envWavOk`. -/
def mdWavOk : Metadata :=
  { source := "sample.wav"
    input_type := "audio"
    duration_s := round3 envWavOk.audio_duration
    profile := "vad"
    model := "pyannote/voice-activity-detection"
    device := "cpu"
    processing_time_s := round3 envWavOk.processing_time
    rtf := round3 (if 0 < envWavOk.audio_duration then
      envWavOk.processing_time / envWavOk.audio_duration else 0)
    segments_count := evWavOk.length
    config := defaultConfig }

/-- The step trace of the successful run `process_audio stReady envWavOk`. -/
def opsWavOk : List Step :=
  [Step.detectFileType, Step.computeHash, Step.readAudio,
   Step.runInference, Step.postProcess, Step.saveResults]

/-- The filter/margin pass is the duration filter followed by the margin
map. -/
theorem passOne_eq (cfg : Config) (D : ℚ) (l : List Seg) :
    passOne cfg D l = (l.filter (filterStep cfg)).map (applyMargin cfg D) := by
  induction l with
  | nil => rfl
  | cons s rest ih =>
    by_cases h : s.«end» - s.start < cfg.min_duration_s
    · simp [passOne, h, filterStep, List.filter_cons, ih]
    · simp [passOne, h, filterStep, List.filter_cons, ih]

theorem mergeLoop_nil (g : ℚ) (current : Seg) :
    mergeLoop g current [] = [current] := rfl

theorem mergeLoop_cons (g : ℚ) (current next : Seg) (rest : List Seg) :
    mergeLoop g current (next :: rest) =
      if next.start - current.«end» ≤ g then
        mergeLoop g { start := current.start, «end» := next.«end» } rest
      else
        current :: mergeLoop g next rest := rfl

/-- Every segment emitted by the merge loop takes its start from one of the
incoming segments and its end from one of the incoming segments. -/
theorem mergeLoop_mem (g : ℚ) :
    ∀ (l : List Seg) (current : Seg), ∀ o ∈ mergeLoop g current l,
      (∃ x ∈ current :: l, o.start = x.start) ∧
      (∃ x ∈ current :: l, o.«end» = x.«end») := by
  intro l
  induction l with
  | nil =>
    intro current o ho
    rw [mergeLoop_nil, List.mem_singleton] at ho
    subst ho
    exact ⟨⟨o, by simp⟩, ⟨o, by simp⟩⟩
  | cons next rest ih =>
    intro current o ho
    rw [mergeLoop_cons] at ho
    by_cases h : next.start - current.«end» ≤ g
    · rw [if_pos h] at ho
      obtain ⟨⟨x, hx, hxs⟩, ⟨y, hy, hye⟩⟩ := ih _ o ho
      constructor
      · rcases List.mem_cons.mp hx with rfl | hx
        · exact ⟨current, by simp, hxs⟩
        · exact ⟨x, by simp [hx], hxs⟩
      · rcases List.mem_cons.mp hy with rfl | hy
        · exact ⟨next, by simp, hye⟩
        · exact ⟨y, by simp [hy], hye⟩
    · rw [if_neg h] at ho
      rcases List.mem_cons.mp ho with rfl | ho
      · exact ⟨⟨o, by simp⟩, ⟨o, by simp⟩⟩
      · obtain ⟨⟨x, hx, hxs⟩, ⟨y, hy, hye⟩⟩ := ih _ o ho
        exact ⟨⟨x, List.mem_cons_of_mem _ hx, hxs⟩,
               ⟨y, List.mem_cons_of_mem _ hy, hye⟩⟩

/-- Main invariant of the merge loop on start-sorted input with a positive
merge gap: the first emitted segment keeps the start of the accumulated
segment, consecutive emitted segments are separated by strictly more than
the merge gap, and every emitted start is bounded below by the accumulated
start. -/
theorem mergeLoop_sorted (g : ℚ) :
    ∀ (l : List Seg) (current : Seg),
      (∀ x ∈ l, current.start ≤ x.start) →
      l.Pairwise (fun a b => a.start ≤ b.start) →
      (∃ e t, mergeLoop g current l = { start := current.start, «end» := e } :: t) ∧
      (mergeLoop g current l).Chain'
        (fun a b => a.start ≤ b.start ∧ a.«end» + g < b.start) ∧
      ∀ o ∈ mergeLoop g current l, current.start ≤ o.start := by
  intro l
  induction l with
  | nil =>
    intro current _ _
    refine ⟨⟨current.«end», [], by rw [mergeLoop_nil]⟩, by rw [mergeLoop_nil]; simp, ?_⟩
    intro o ho
    rw [mergeLoop_nil, List.mem_singleton] at ho
    subst ho
    exact le_refl _
  | cons next rest ih =>
    intro current hc hs
    rw [mergeLoop_cons]
    by_cases h : next.start - current.«end» ≤ g
    · rw [if_pos h]
      have hc' : ∀ x ∈ rest, (Seg.mk current.start next.«end»).start ≤ x.start := by
        intro x hx
        exact hc x (List.mem_cons_of_mem _ hx)
      obtain ⟨hhead, hchain, hall⟩ := ih _ hc' hs.of_cons
      exact ⟨hhead, hchain, hall⟩
    · rw [if_neg h]
      have hgap : current.«end» + g < next.start := by
        have := lt_of_not_le h
        linarith
      have hcnext : current.start ≤ next.start := hc next (List.mem_cons_self _ _)
      have hc'' : ∀ x ∈ rest, next.start ≤ x.start := (List.pairwise_cons.mp hs).1
      obtain ⟨⟨e, t, heq⟩, hchain, hall⟩ := ih next hc'' (List.pairwise_cons.mp hs).2
      refine ⟨⟨current.«end», mergeLoop g next rest, rfl⟩, ?_, ?_⟩
      · rw [heq]
        rw [heq] at hchain
        exact List.chain'_cons.mpr ⟨⟨hcnext, hgap⟩, hchain⟩
      · intro o ho
        rcases List.mem_cons.mp ho with rfl | ho
        · exact le_refl _
        · exact le_trans hcnext (hall o ho)

/-- The merge loop never shortens a segment below the common lower bound on
the incoming segment lengths, on start-sorted input. -/
theorem mergeLoop_minLen (g d : ℚ) :
    ∀ (l : List Seg) (current : Seg),
      (∀ x ∈ l, current.start ≤ x.start) →
      l.Pairwise (fun a b => a.start ≤ b.start) →
      d ≤ current.«end» - current.start →
      (∀ x ∈ l, d ≤ x.«end» - x.start) →
      ∀ o ∈ mergeLoop g current l, d ≤ o.«end» - o.start := by
  intro l
  induction l with
  | nil =>
    intro current _ _ hcur _ o ho
    rw [mergeLoop_nil, List.mem_singleton] at ho
    subst ho
    exact hcur
  | cons next rest ih =>
    intro current hc hs hcur hlen o ho
    rw [mergeLoop_cons] at ho
    by_cases h : next.start - current.«end» ≤ g
    · rw [if_pos h] at ho
      refine ih _ ?_ hs.of_cons ?_ ?_ o ho
      · intro x hx
        exact hc x (List.mem_cons_of_mem _ hx)
      · have h1 : d ≤ next.«end» - next.start := hlen next (List.mem_cons_self _ _)
        have h2 : current.start ≤ next.start := hc next (List.mem_cons_self _ _)
        simp only
        linarith
      · intro x hx
        exact hlen x (List.mem_cons_of_mem _ hx)
    · rw [if_neg h] at ho
      rcases List.mem_cons.mp ho with rfl | ho
      · exact hcur
      · refine ih next (List.pairwise_cons.mp hs).1 (List.pairwise_cons.mp hs).2
          (hlen next (List.mem_cons_self _ _)) ?_ o ho
        intro x hx
        exact hlen x (List.mem_cons_of_mem _ hx)

/-- When every neighbouring pair is separated by strictly more than the
merge gap, the merge loop emits the list unchanged. -/
theorem mergeLoop_fixed (g : ℚ) :
    ∀ (l : List Seg) (current : Seg),
      List.Chain (fun a b => a.«end» + g < b.start) current l →
      mergeLoop g current l = current :: l := by
  intro l
  induction l with
  | nil => intro current _; rw [mergeLoop_nil]
  | cons next rest ih =>
    intro current hchain
    obtain ⟨h1, h2⟩ := List.chain_cons.mp hchain
    rw [mergeLoop_cons, if_neg (by intro hle; linarith), ih next h2]

/-- The filter test succeeds exactly on segments at least
`min_duration_s` long. -/
theorem filterStep_iff (cfg : Config) (s : Seg) :
    filterStep cfg s = true ↔ cfg.min_duration_s ≤ s.«end» - s.start := by
  simp [filterStep, not_lt]

/-- With a zero margin, margin application fixes every segment already
inside the file bounds. -/
theorem applyMargin_id (cfg : Config) (D : ℚ) (s : Seg)
    (hm : cfg.margin_s = 0) (h0 : 0 ≤ s.start) (hD : s.«end» ≤ D) :
    applyMargin cfg D s = s := by
  simp [applyMargin, hm, max_eq_right h0, min_eq_right hD]

/-- Every segment produced by the filter/margin pass starts at or after 0
and ends at or before the audio duration. -/
theorem passOne_bounds (cfg : Config) (D : ℚ) (l : List Seg) :
    ∀ o ∈ passOne cfg D l, 0 ≤ o.start ∧ o.«end» ≤ D := by
  intro o ho
  rw [passOne_eq] at ho
  obtain ⟨x, _, rfl⟩ := List.mem_map.mp ho
  exact ⟨le_max_left _ _, min_le_left _ _⟩

/-- A chain for a transitive relation on segments is pairwise. -/
theorem chain_rel_of_mem {R : Seg → Seg → Prop}
    (ht : ∀ a b c, R a b → R b c → R a c) :
    ∀ (l : List Seg) (a : Seg), List.Chain' R (a :: l) → ∀ b ∈ l, R a b := by
  intro l
  induction l with
  | nil => intro a _ b hb; exact absurd hb (List.not_mem_nil b)
  | cons c l ih =>
    intro a hch b hb
    obtain ⟨hac, htail⟩ := List.chain'_cons.mp hch
    rcases List.mem_cons.mp hb with rfl | hb
    · exact hac
    · exact ht a c b hac (ih c htail b hb)

theorem chain'_pairwise {R : Seg → Seg → Prop}
    (ht : ∀ a b c, R a b → R b c → R a c) :
    ∀ l : List Seg, List.Chain' R l → List.Pairwise R l := by
  intro l
  induction l with
  | nil => intro _; exact List.Pairwise.nil
  | cons a l ih =>
    intro hch
    refine List.pairwise_cons.mpr ⟨chain_rel_of_mem ht l a hch, ?_⟩
    exact ih (List.chain'_cons'.mp hch).2

/-- C8: the duration filter of `_post_process_segments` drops a segment
exactly when its length is strictly below `min_duration_s`: a too-short
segment is skipped (`continue`), while a segment of length at least
`min_duration_s` — including exactly `min_duration_s` — is kept and
margin-expanded. -/
theorem duration_filter_boundary (cfg : Config) (D : ℚ) (s : Seg)
    (rest : List Seg) :
    (s.«end» - s.start < cfg.min_duration_s →
      passOne cfg D (s :: rest) = passOne cfg D rest) ∧
    (cfg.min_duration_s ≤ s.«end» - s.start →
      passOne cfg D (s :: rest) = applyMargin cfg D s :: passOne cfg D rest) := by
  constructor
  · intro h
    simp only [passOne, if_pos h]
  · intro h
    simp only [passOne, if_neg (not_lt.mpr h)]

/-- C8 witness: with the default threshold 0.3, a segment of length
exactly 0.3 is kept and one of length 0.2 is dropped. -/
theorem duration_filter_boundary_witness :
    passOne defaultConfig 1 [{ start := 0, «end» := 3/10 }] =
      [applyMargin defaultConfig 1 { start := 0, «end» := 3/10 }] ∧
    passOne defaultConfig 1 [{ start := 0, «end» := 1/5 }] = [] := by
  constructor
  · have h := (duration_filter_boundary defaultConfig 1
      { start := 0, «end» := 3/10 } []).2 (by norm_num [defaultConfig])
    rw [h]
    rfl
  · have h := (duration_filter_boundary defaultConfig 1
      { start := 0, «end» := 1/5 } []).1 (by norm_num [defaultConfig])
    rw [h]
    rfl

/-- C7: one step of the merge loop (entered only when `merge_gap_s > 0`)
coalesces the accumulated segment with its neighbour exactly when the gap
`next.start - current.end` is at most `merge_gap_s` — gaps equal to the
threshold merge, larger gaps do not — and merging keeps the accumulated
start while extending the end to the neighbour's end. -/
theorem merge_step_boundary (g : ℚ) (current next : Seg) (rest : List Seg)
    (hg : 0 < g) :
    (next.start - current.«end» ≤ g →
      mergeLoop g current (next :: rest) =
        mergeLoop g { start := current.start, «end» := next.«end» } rest) ∧
    (g < next.start - current.«end» →
      mergeLoop g current (next :: rest) = current :: mergeLoop g next rest) := by
  constructor
  · intro h
    rw [mergeLoop_cons, if_pos h]
  · intro h
    rw [mergeLoop_cons, if_neg (not_le.mpr h)]

/-- C7 witness: with gap threshold 0.2, segments `[0,1]` and `[1.2,2]`
(gap exactly 0.2) merge into `[0,2]`, while `[0,1]` and `[1.3,2]`
(gap 0.3) stay separate. -/
theorem merge_step_boundary_witness :
    mergeLoop (1/5 : ℚ) { start := 0, «end» := 1 }
        [{ start := 6/5, «end» := 2 }] = [{ start := 0, «end» := 2 }] ∧
    mergeLoop (1/5 : ℚ) { start := 0, «end» := 1 }
        [{ start := 13/10, «end» := 2 }] =
      [{ start := 0, «end» := 1 }, { start := 13/10, «end» := 2 }] := by
  constructor
  · have h := (merge_step_boundary (1/5 : ℚ) { start := 0, «end» := 1 }
      { start := 6/5, «end» := 2 } [] (by norm_num)).1 (by norm_num)
    rw [h, mergeLoop_nil]
  · have h := (merge_step_boundary (1/5 : ℚ) { start := 0, «end» := 1 }
      { start := 13/10, «end» := 2 } [] (by norm_num)).2 (by norm_num)
    rw [h, mergeLoop_nil]

/-- C9: margin expansion computes `start = max(0, start - margin_s)` and
`end = min(audio_duration, end + margin_s)`, and consequently every
segment returned by `_post_process_segments` has `0 ≤ start` and
`end ≤ audio_duration`. -/
theorem postprocess_margin_clamp (cfg : Config) (segs : List Seg) (D : ℚ) :
    (∀ s : Seg, applyMargin cfg D s =
      { start := max 0 (s.start - cfg.margin_s)
        «end» := min D (s.«end» + cfg.margin_s) }) ∧
    ∀ o ∈ _post_process_segments cfg segs D, 0 ≤ o.start ∧ o.«end» ≤ D := by
  refine ⟨fun s => rfl, ?_⟩
  intro o ho
  simp only [_post_process_segments] at ho
  by_cases hg : 0 < cfg.merge_gap_s
  · rw [if_pos hg] at ho
    cases hP : passOne cfg D segs with
    | nil => rw [hP] at ho; exact absurd ho (List.not_mem_nil o)
    | cons p ps =>
      rw [hP] at ho
      obtain ⟨⟨x, hx, hxs⟩, ⟨y, hy, hye⟩⟩ := mergeLoop_mem cfg.merge_gap_s ps p o ho
      have hxb := passOne_bounds cfg D segs x (hP ▸ hx)
      have hyb := passOne_bounds cfg D segs y (hP ▸ hy)
      rw [hxs, hye]
      exact ⟨hxb.1, hyb.2⟩
  · rw [if_neg hg] at ho
    exact passOne_bounds cfg D segs o ho

/-- C9 witness: on segment `[0,1]` with the default margin 0.25 and a
10-second file, the single output segment `[0, 1.25]` satisfies the
bounds. -/
theorem postprocess_margin_clamp_witness :
    ({ start := 0, «end» := 5/4 } : Seg) ∈
      _post_process_segments defaultConfig [{ start := 0, «end» := 1 }] 10 ∧
    (0 : ℚ) ≤ ({ start := 0, «end» := 5/4 } : Seg).start ∧
    ({ start := 0, «end» := 5/4 } : Seg).«end» ≤ 10 := by
  have hm : ({ start := 0, «end» := 5/4 } : Seg) ∈
      _post_process_segments defaultConfig [{ start := 0, «end» := 1 }] 10 := by
    norm_num [_post_process_segments, passOne, applyMargin, filterStep,
      mergeLoop, defaultConfig]
  exact ⟨hm, (postprocess_margin_clamp defaultConfig
    [{ start := 0, «end» := 1 }] 10).2 _ hm⟩

/-- C5 (amended): when `merge_gap_s = 0` the guard
`merge_gap_s > 0` skips the merge block entirely, so the output is the
filtered, margin-expanded list unchanged — no coalescing happens, not
even of exactly adjacent or overlapping segments. -/
theorem postprocess_gap_zero_skips_merge (cfg : Config) (segs : List Seg)
    (D : ℚ) (h : cfg.merge_gap_s = 0) :
    _post_process_segments cfg segs D =
      (segs.filter (filterStep cfg)).map (applyMargin cfg D) := by
  simp only [_post_process_segments, h]
  rw [if_neg (lt_irrefl 0), passOne_eq]

/-- C5 witness: the gap-zero theorem applied to two exactly adjacent
segments. -/
theorem postprocess_gap_zero_skips_merge_witness :
    _post_process_segments { min_duration_s := 0, merge_gap_s := 0, margin_s := 0 }
        [{ start := 0, «end» := 1 }, { start := 1, «end» := 2 }] 2 =
      (([{ start := 0, «end» := 1 }, { start := 1, «end» := 2 }] : List Seg).filter
          (filterStep { min_duration_s := 0, merge_gap_s := 0, margin_s := 0 })).map
        (applyMargin { min_duration_s := 0, merge_gap_s := 0, margin_s := 0 } 2) :=
  postprocess_gap_zero_skips_merge
    { min_duration_s := 0, merge_gap_s := 0, margin_s := 0 }
    [{ start := 0, «end» := 1 }, { start := 1, «end» := 2 }] 2 rfl

/-- C5 counterexample: with `merge_gap_s = 0`, the exactly adjacent
segments `[0,1]` and `[1,2]` (gap 0) are NOT coalesced — the output still
holds both, not the single segment `[0,2]` the claim predicts. -/
theorem postprocess_gap_zero_adjacent_separate :
    _post_process_segments { min_duration_s := 0, merge_gap_s := 0, margin_s := 0 }
        [{ start := 0, «end» := 1 }, { start := 1, «end» := 2 }] 2 =
      [{ start := 0, «end» := 1 }, { start := 1, «end» := 2 }] ∧
    _post_process_segments { min_duration_s := 0, merge_gap_s := 0, margin_s := 0 }
        [{ start := 0, «end» := 1 }, { start := 1, «end» := 2 }] 2 ≠
      [{ start := 0, «end» := 2 }] := by
  have h1 : _post_process_segments { min_duration_s := 0, merge_gap_s := 0, margin_s := 0 }
      [{ start := 0, «end» := 1 }, { start := 1, «end» := 2 }] 2 =
      [{ start := 0, «end» := 1 }, { start := 1, «end» := 2 }] := by
    norm_num [_post_process_segments, passOne, applyMargin, filterStep]
  exact ⟨h1, by rw [h1]; simp⟩

/-- C3 (amended): on input sorted ascending by start, with a strictly
positive `merge_gap_s` (and non-negative filter/margin parameters), the
post-processed list is sorted ascending by start and pairwise
non-overlapping. -/
theorem postprocess_sorted_disjoint (cfg : Config) (segs : List Seg) (D : ℚ)
    (hmin : 0 ≤ cfg.min_duration_s) (hmar : 0 ≤ cfg.margin_s)
    (hgap : 0 < cfg.merge_gap_s)
    (hse : ∀ s ∈ segs, s.start < s.«end»)
    (hsorted : segs.Pairwise (fun a b => a.start ≤ b.start)) :
    (_post_process_segments cfg segs D).Pairwise
      (fun a b => a.start ≤ b.start ∧ a.«end» ≤ b.start) := by
  simp only [_post_process_segments]
  rw [if_pos hgap]
  have hpsorted : (passOne cfg D segs).Pairwise
      (fun a b => a.start ≤ b.start) := by
    rw [passOne_eq]
    refine List.pairwise_map.mpr ((hsorted.filter _).imp ?_)
    intro a b hab
    exact max_le_max (le_refl 0) (by linarith)
  cases hP : passOne cfg D segs with
  | nil => exact List.Pairwise.nil
  | cons p ps =>
    rw [hP] at hpsorted
    obtain ⟨_, hchain, _⟩ := mergeLoop_sorted cfg.merge_gap_s ps p
      (List.pairwise_cons.mp hpsorted).1 (List.pairwise_cons.mp hpsorted).2
    have hpw := chain'_pairwise
      (R := fun a b => a.start ≤ b.start ∧ a.«end» + cfg.merge_gap_s < b.start)
      (fun a b c hab hbc => ⟨le_trans hab.1 hbc.1, lt_of_lt_of_le hab.2 hbc.1⟩)
      _ hchain
    exact hpw.imp (fun hab => ⟨hab.1, by linarith [hab.2, hgap]⟩)

/-- C3 witness: the sortedness/disjointness theorem applied to two sorted
raw segments under the default configuration. -/
theorem postprocess_sorted_disjoint_witness :
    (_post_process_segments defaultConfig
        [{ start := 0, «end» := 1 }, { start := 2, «end» := 3 }] 10).Pairwise
      (fun a b => a.start ≤ b.start ∧ a.«end» ≤ b.start) :=
  postprocess_sorted_disjoint defaultConfig
    [{ start := 0, «end» := 1 }, { start := 2, «end» := 3 }] 10
    (by norm_num [defaultConfig]) (by norm_num [defaultConfig])
    (by norm_num [defaultConfig])
    (by norm_num [List.forall_mem_cons])
    (by norm_num [List.pairwise_cons])

/-- C3 counterexample: for the unsorted input `[[2,3], [0,5]]` (each with
start < end) and the non-negative configuration with all three parameters
0, the output `[[2,3], [0,5]]` is neither sorted by start nor
non-overlapping, so the claim quantified over arbitrary interval lists
fails. -/
theorem postprocess_unsorted_violation :
    (∀ s ∈ ([{ start := 2, «end» := 3 }, { start := 0, «end» := 5 }] : List Seg),
      s.start < s.«end») ∧
    _post_process_segments { min_duration_s := 0, merge_gap_s := 0, margin_s := 0 }
        [{ start := 2, «end» := 3 }, { start := 0, «end» := 5 }] 5 =
      [{ start := 2, «end» := 3 }, { start := 0, «end» := 5 }] ∧
    ¬ (_post_process_segments { min_duration_s := 0, merge_gap_s := 0, margin_s := 0 }
        [{ start := 2, «end» := 3 }, { start := 0, «end» := 5 }] 5).Pairwise
      (fun a b => a.start ≤ b.start ∧ a.«end» ≤ b.start) := by
  have h1 : _post_process_segments { min_duration_s := 0, merge_gap_s := 0, margin_s := 0 }
      [{ start := 2, «end» := 3 }, { start := 0, «end» := 5 }] 5 =
      [{ start := 2, «end» := 3 }, { start := 0, «end» := 5 }] := by
    norm_num [_post_process_segments, passOne, applyMargin, filterStep]
  refine ⟨by norm_num [List.forall_mem_cons], h1, ?_⟩
  rw [h1]
  intro hp
  have h2 := (List.pairwise_cons.mp hp).1 { start := 0, «end» := 5 }
    (List.mem_cons_self _ _)
  exact absurd h2.1 (by norm_num)

/-- C4 (amended): the post-processor is idempotent when `margin_s = 0`,
the input is sorted ascending by start and lies inside the file bounds;
re-running it then re-applies a filter that keeps everything, an identity
margin step, and a merge pass that finds every gap already above
`merge_gap_s`.  (With a positive margin the second run expands every
segment again, so unrestricted idempotence fails — see the
counterexample.) -/
theorem postprocess_idempotent_margin_zero (cfg : Config) (segs : List Seg)
    (D : ℚ) (hm : cfg.margin_s = 0)
    (hsorted : segs.Pairwise (fun a b => a.start ≤ b.start))
    (hb : ∀ s ∈ segs, 0 ≤ s.start ∧ s.«end» ≤ D) :
    _post_process_segments cfg (_post_process_segments cfg segs D) D =
      _post_process_segments cfg segs D := by
  have hpass : ∀ l : List Seg, (∀ s ∈ l, 0 ≤ s.start ∧ s.«end» ≤ D) →
      passOne cfg D l = l.filter (filterStep cfg) := by
    intro l hl
    rw [passOne_eq]
    have hid : ∀ x ∈ l.filter (filterStep cfg),
        applyMargin cfg D x = x := by
      intro x hx
      have hxb := hl x (List.mem_filter.mp hx).1
      exact applyMargin_id cfg D x hm hxb.1 hxb.2
    rw [List.map_congr_left hid, List.map_id']
  have hF1 : passOne cfg D segs = segs.filter (filterStep cfg) := hpass segs hb
  have hFb : ∀ x ∈ segs.filter (filterStep cfg), 0 ≤ x.start ∧ x.«end» ≤ D :=
    fun x hx => hb x (List.mem_filter.mp hx).1
  have hFlen : ∀ x ∈ segs.filter (filterStep cfg),
      cfg.min_duration_s ≤ x.«end» - x.start :=
    fun x hx => (filterStep_iff cfg x).mp (List.mem_filter.mp hx).2
  have hFsorted : (segs.filter (filterStep cfg)).Pairwise
      (fun a b => a.start ≤ b.start) := hsorted.filter _
  by_cases hg : 0 < cfg.merge_gap_s
  · cases hFE : segs.filter (filterStep cfg) with
    | nil =>
      have h1 : _post_process_segments cfg segs D = [] := by
        simp only [_post_process_segments]
        rw [hF1, hFE, if_pos hg]
      rw [h1]
      simp only [_post_process_segments, passOne]
      rw [if_pos hg]
    | cons p ps =>
      rw [hFE] at hFsorted hFb hFlen
      have hcp := (List.pairwise_cons.mp hFsorted).1
      have hps := (List.pairwise_cons.mp hFsorted).2
      have hpp1 : _post_process_segments cfg segs D =
          mergeLoop cfg.merge_gap_s p ps := by
        simp only [_post_process_segments]
        rw [hF1, hFE, if_pos hg]
      obtain ⟨e, t, hMeq⟩ := (mergeLoop_sorted cfg.merge_gap_s ps p hcp hps).1
      have hchain := (mergeLoop_sorted cfg.merge_gap_s ps p hcp hps).2.1
      have hMb : ∀ o ∈ mergeLoop cfg.merge_gap_s p ps,
          0 ≤ o.start ∧ o.«end» ≤ D := by
        intro o ho
        obtain ⟨⟨x, hx, hxs⟩, ⟨y, hy, hye⟩⟩ := mergeLoop_mem _ ps p o ho
        rw [hxs, hye]
        exact ⟨(hFb x hx).1, (hFb y hy).2⟩
      have hMlen : ∀ o ∈ mergeLoop cfg.merge_gap_s p ps,
          cfg.min_duration_s ≤ o.«end» - o.start :=
        mergeLoop_minLen _ _ ps p hcp hps (hFlen p (List.mem_cons_self p ps))
          (fun x hx => hFlen x (List.mem_cons_of_mem p hx))
      rw [hpp1]
      have h2 : passOne cfg D (mergeLoop cfg.merge_gap_s p ps) =
          mergeLoop cfg.merge_gap_s p ps := by
        rw [hpass _ hMb]
        exact List.filter_eq_self.mpr
          (fun o ho => (filterStep_iff cfg o).mpr (hMlen o ho))
      simp only [_post_process_segments]
      rw [h2, if_pos hg, hMeq]
      have hch' : List.Chain'
          (fun a b => a.start ≤ b.start ∧ a.«end» + cfg.merge_gap_s < b.start)
          ({ start := p.start, «end» := e } :: t) := hMeq ▸ hchain
      have hch : List.Chain
          (fun a b => a.start ≤ b.start ∧ a.«end» + cfg.merge_gap_s < b.start)
          { start := p.start, «end» := e } t := hch'
      exact mergeLoop_fixed cfg.merge_gap_s t { start := p.start, «end» := e }
        (hch.imp (fun a b h => h.2))
  · have hpp1 : _post_process_segments cfg segs D =
        segs.filter (filterStep cfg) := by
      simp only [_post_process_segments]
      rw [hF1, if_neg hg]
    rw [hpp1]
    simp only [_post_process_segments]
    rw [if_neg hg, hpass _ hFb]
    exact List.filter_eq_self.mpr (fun o ho => (List.mem_filter.mp ho).2)

/-- C4 witness: the idempotence theorem applied to one in-bounds segment
with margin 0. -/
theorem postprocess_idempotent_margin_zero_witness :
    _post_process_segments { min_duration_s := 3/10, merge_gap_s := 1/5, margin_s := 0 }
        (_post_process_segments
          { min_duration_s := 3/10, merge_gap_s := 1/5, margin_s := 0 }
          [{ start := 0, «end» := 1 }] 10) 10 =
      _post_process_segments { min_duration_s := 3/10, merge_gap_s := 1/5, margin_s := 0 }
        [{ start := 0, «end» := 1 }] 10 :=
  postprocess_idempotent_margin_zero
    { min_duration_s := 3/10, merge_gap_s := 1/5, margin_s := 0 }
    [{ start := 0, «end» := 1 }] 10 rfl
    (by norm_num [List.pairwise_cons])
    (by norm_num [List.forall_mem_cons])

/-- C4 counterexample: under the default configuration (margin 0.25) the
post-processor maps `[[1,2]]` to `[[0.75, 2.25]]`, and a second run
expands the margins again to `[[0.5, 2.5]]`, so `postprocess` is not
idempotent as claimed. -/
theorem postprocess_not_idempotent :
    _post_process_segments defaultConfig [{ start := 1, «end» := 2 }] 10 =
      [{ start := 3/4, «end» := 9/4 }] ∧
    _post_process_segments defaultConfig
        [{ start := 3/4, «end» := 9/4 }] 10 =
      [{ start := 1/2, «end» := 5/2 }] ∧
    _post_process_segments defaultConfig
        (_post_process_segments defaultConfig [{ start := 1, «end» := 2 }] 10) 10 ≠
      _post_process_segments defaultConfig [{ start := 1, «end» := 2 }] 10 := by
  have h1 : _post_process_segments defaultConfig [{ start := 1, «end» := 2 }] 10 =
      [{ start := 3/4, «end» := 9/4 }] := by
    norm_num [_post_process_segments, passOne, applyMargin, filterStep,
      mergeLoop, defaultConfig]
  have h2 : _post_process_segments defaultConfig [{ start := 3/4, «end» := 9/4 }] 10 =
      [{ start := 1/2, «end» := 5/2 }] := by
    norm_num [_post_process_segments, passOne, applyMargin, filterStep,
      mergeLoop, defaultConfig]
  refine ⟨h1, h2, ?_⟩
  rw [h1, h2]
  intro hEq
  rw [List.cons.injEq, Seg.mk.injEq] at hEq
  exact absurd hEq.1.1 (by norm_num)

/-- C2 counterexample: calling `initialize_pipeline` while the pipeline
handle is already loaded is not a no-op returning success — with no
resolvable token it returns the missing-token failure record, because the
method never consults the Initialized state. -/
theorem initialize_pipeline_loaded_returns_failure :
    stLoadedNoToken.pipeline = some () ∧
    (initialize_pipeline none stLoadedNoToken envInitOk).1.success = false ∧
    (initialize_pipeline none stLoadedNoToken envInitOk).1.message =
      "Token HuggingFace manquant" :=
  ⟨rfl, rfl, rfl⟩

/-- C2 (amended): `initialize_pipeline` ignores the pipeline handle: its
result and its external effects are the same whatever the handle holds,
and whenever a token resolves it re-runs the model access check (and, on
success, the engine load) even if the pipeline is already loaded. -/
theorem initialize_pipeline_ignores_state (hf : Option String) (st : VADState)
    (env : InitEnv) (p : Option Unit) :
    ((initialize_pipeline hf st env).1 =
      (initialize_pipeline hf { st with pipeline := p } env).1) ∧
    ((initialize_pipeline hf st env).2.2 =
      (initialize_pipeline hf { st with pipeline := p } env).2.2) ∧
    ((hf.orElse fun _ => st.token).isSome →
      InitEffect.checkAccess ∈ (initialize_pipeline hf st env).2.2) := by
  rcases hf with _ | t
  · rcases htok : st.token with _ | tok
    · simp [initialize_pipeline, Option.orElse, htok]
    · simp only [initialize_pipeline, Option.orElse, htok]
      split_ifs <;> simp
  · simp only [initialize_pipeline, Option.orElse]
    split_ifs <;> simp

/-- C2 witness: with a pipeline already loaded and a token at hand, a
re-initialization call still performs the model access probe. -/
theorem initialize_pipeline_ignores_state_witness :
    InitEffect.checkAccess ∈
      (initialize_pipeline (some "hf_token") stReady envInitOk).2.2 :=
  (initialize_pipeline_ignores_state (some "hf_token") stReady envInitOk
    none).2.2 rfl

/-- C1: on an uninitialized processor with no resolvable token,
`initialize_pipeline()` returns a failure dict — but that non-empty dict
is truthy, so `if not self.initialize_pipeline():` never fires:
`process_audio` proceeds to file-type detection, hashing and decoding,
and dies at `self.pipeline(audio_path)` with a `TypeError`, returning the
generic failure record without the health snapshot the guard was meant to
attach. -/
theorem process_audio_uninitialized_proceeds :
    (initialize_pipeline none stUninit envWavNoToken.init_env).1.success = false ∧
    process_audio stUninit envWavNoToken =
      (ProcResult.failure "NoneType object is not callable" "TypeError",
       stUninit,
       [Step.initAttempt, Step.detectFileType, Step.computeHash,
        Step.readAudio]) :=
  ⟨rfl, rfl⟩

/-- C6 counterexample: for a video input whose extraction succeeds but
whose subsequent hashing raises, `process_audio` returns the failure
record with the scratch file still on disk — the cleanup step never ran
(the source only removes the scratch file on the success path; the
`except` block has no cleanup). -/
theorem process_video_error_scratch_not_removed :
    process_audio stReady envVideoHashFail =
      (ProcResult.failure "read failed" "OSError", stReady,
       [Step.detectFileType, Step.extractScratch]) ∧
    Step.extractScratch ∈ [Step.detectFileType, Step.extractScratch] ∧
    Step.removeScratch ∉ [Step.detectFileType, Step.extractScratch] :=
  ⟨rfl, by decide, by decide⟩

/-- C6 (amended): once an audio scratch file has been extracted from a
video input, `process_audio` removes it exactly when all the remaining
steps (hashing, decoding, inference, post-processing) succeed: on the
success path the file is deleted before the result record is built, while
any exception raised after extraction reaches the top-level `except`
without any cleanup and the scratch file is left behind. -/
theorem process_scratch_removed_iff_success (st : VADState) (env : ProcEnv)
    (res : ProcResult) (st' : VADState) (ops : List Step)
    (h : process_audio st env = (res, st', ops))
    (hx : Step.extractScratch ∈ ops) :
    (Step.removeScratch ∈ ops ↔ ∃ md ev, res = ProcResult.success md ev) := by
  simp only [process_audio, process_audio_body] at h
  repeat' split at h
  all_goals simp only [Prod.mk.injEq] at h
  all_goals obtain ⟨rfl, rfl, rfl⟩ := h
  all_goals simp_all

/-- C6 witness: on a fully successful video run the cleanup equivalence
holds with both sides true. -/
theorem process_scratch_removed_iff_success_witness :
    Step.removeScratch ∈ (process_audio stReady envVideoOk).2.2 ↔
      ∃ md ev, (process_audio stReady envVideoOk).1 =
        ProcResult.success md ev :=
  process_scratch_removed_iff_success stReady envVideoOk
    (process_audio stReady envVideoOk).1
    (process_audio stReady envVideoOk).2.1
    (process_audio stReady envVideoOk).2.2
    rfl (by decide)

/-- C10: any successful `process_audio` result carries exactly one speech
event per post-processed segment — with `start`/`end` the 3-decimal
roundings of the segment bounds, `duration` the 3-decimal rounding of
their difference, `confidence` always null — and
`metadata.segments_count` equal to the number of events. -/
theorem process_audio_success_shape (st : VADState) (env : ProcEnv)
    (md : Metadata) (events : List SpeechEvent) (st' : VADState)
    (ops : List Step)
    (h : process_audio st env = (ProcResult.success md events, st', ops)) :
    events = (_post_process_segments st'.config (extractSegments env)
        env.audio_duration).map
      (fun s => { type := "speech", start := round3 s.start,
                  «end» := round3 s.«end», confidence := none,
                  duration := round3 (s.«end» - s.start) }) ∧
    md.segments_count = events.length ∧
    ∀ e ∈ events, e.confidence = none := by
  simp only [process_audio, process_audio_body] at h
  repeat' split at h
  all_goals simp only [Prod.mk.injEq, ProcResult.success.injEq, reduceCtorEq,
    false_and] at h
  all_goals obtain ⟨⟨hmd, hev⟩, hst, hops⟩ := h
  all_goals subst hmd
  all_goals subst hev
  all_goals subst hst
  all_goals refine ⟨rfl, rfl, ?_⟩
  all_goals intro e he
  all_goals obtain ⟨s, _, rfl⟩ := List.mem_map.mp he
  all_goals rfl

/-- C10 witness: the shape theorem applied to the concrete successful run
on `sample.wav`. -/
theorem process_audio_success_shape_witness :
    evWavOk = (_post_process_segments stReady.config (extractSegments envWavOk)
        envWavOk.audio_duration).map
      (fun s => { type := "speech", start := round3 s.start,
                  «end» := round3 s.«end», confidence := none,
                  duration := round3 (s.«end» - s.start) }) ∧
    mdWavOk.segments_count = evWavOk.length ∧
    ∀ e ∈ evWavOk, e.confidence = none :=
  process_audio_success_shape stReady envWavOk mdWavOk evWavOk stReady
    opsWavOk rfl

end VAD
